import Mathlib

set_option autoImplicit false

/-!
Shallow embedding of the vspdf keybinding resolution engine:
the when-clause expression engine (`services/context/ContextKeyExpression.ts`),
the hierarchical context store (`services/context/ContextKeyService.ts`),
the keybinding resolver (`services/keybindings/KeybindingResolver.ts`),
the dispatcher (`services/keybindings/KeybindingService.ts`) and the
command registry (`CommandRegistry.ts`).

JavaScript numbers are modelled as rationals, JS objects used as string-keyed
records are modelled as association lists (JS object keys are unique, so the
first matching entry is the entry), and JS `Map`s are modelled as association
lists with insertion-order preserving `set`/`delete` operations.  Regular
expression matching (`RegExp.test`) is not re-implemented; every function that
can evaluate a regex node takes the matcher `rt : String → String → Bool` as an
explicit parameter, so all theorems below hold for every regex semantics.
-/

/-- Context key values (`ContextKeyValue` in `services/context/types.ts`):
`string | number | boolean | undefined`. -/
inductive CtxValue where
  | str (s : String)
  | num (q : Rat)
  | bool (b : Bool)
  | undefined
  deriving DecidableEq, Repr

/-- A flat context map (`ContextKeyMap` in `services/context/types.ts`):
a JS record from key names to values, keys unique. -/
abbrev CtxMap := List (String × CtxValue)

/-- JS property read `context[key]`: an absent key reads as `undefined`. -/
def ctxGet (ctx : CtxMap) (k : String) : CtxValue :=
  (ctx.lookup k).getD .undefined

/-- JS `/\s/` test, restricted to the usual ASCII whitespace. -/
def isWsChar (c : Char) : Bool :=
  c = ' ' || c = '\t' || c = '\n' || c = '\r' || c = '\x0b' || c = '\x0c'

/-- JS `String.prototype.trim`: strip whitespace from both ends. -/
def jsTrim (l : List Char) : List Char :=
  ((l.dropWhile isWsChar).reverse.dropWhile isWsChar).reverse

/-- Digit list to natural number, most significant first. -/
def digitsToNat (l : List Char) : Nat :=
  l.foldl (fun acc c => 10 * acc + (c.toNat - '0'.toNat)) 0

/-- Fractional digit list to the rational `0.d₁d₂…`. -/
def digitsToFrac (l : List Char) : Rat :=
  (digitsToNat l : Rat) / ((10 : Rat) ^ l.length)

/-- JS `Number(string)` (the decimal fragment: optional sign, digits, at most
one point), applied after trimming; `none` models `NaN`.  Used only for the
implicit numeric coercion a comparison operator applies to its stored
right-hand value when that value is not a number. -/
def jsStringToNumber (s : String) : Option Rat :=
  let core : List Char → Option Rat := fun l =>
    let intPart := l.takeWhile Char.isDigit
    let rest := l.dropWhile Char.isDigit
    match rest with
    | [] => if intPart = [] then none else some (digitsToNat intPart)
    | '.' :: r2 =>
        let frac := r2.takeWhile Char.isDigit
        let rest2 := r2.dropWhile Char.isDigit
        if rest2 ≠ [] then none
        else if intPart = [] ∧ frac = [] then none
        else some ((digitsToNat intPart : Rat) + digitsToFrac frac)
    | _ => none
  match jsTrim s.data with
  | [] => some 0
  | '-' :: rest => (core rest).map Neg.neg
  | '+' :: rest => core rest
  | l => core l

/-- JS `ToNumber` on a context value; `none` models `NaN`. -/
def CtxValue.jsToNumber : CtxValue → Option Rat
  | .num q => some q
  | .bool b => some (if b then 1 else 0)
  | .str s => jsStringToNumber s
  | .undefined => none

/-- The when-clause expression AST (`ContextKeyExpression` and its subclasses
`ContextKeyDefinedExpr`, `ContextKeyEqualsExpr`, `ContextKeyNotEqualsExpr`,
`ContextKeyGreaterExpr`, `ContextKeyGreaterEqualsExpr`, `ContextKeySmallerExpr`,
`ContextKeySmallerEqualsExpr`, `ContextKeyRegexExpr`, `ContextKeyInExpr`,
`ContextKeyNotExpr`, `ContextKeyAndExpr`, `ContextKeyOrExpr`).  The comparison
nodes store the parsed literal unchanged (the source casts it with
`value as number`), so the stored value is a `CtxValue`. -/
inductive ContextKeyExpression where
  | defined (key : String)
  | equals (key : String) (value : CtxValue)
  | notEquals (key : String) (value : CtxValue)
  | greater (key : String) (value : CtxValue)
  | greaterEquals (key : String) (value : CtxValue)
  | smaller (key : String) (value : CtxValue)
  | smallerEquals (key : String) (value : CtxValue)
  | regex (key : String) (pattern : String)
  | inExpr (key : String) (values : List CtxValue)
  | not (e : ContextKeyExpression)
  | and (l r : ContextKeyExpression)
  | or (l r : ContextKeyExpression)
  deriving DecidableEq, Repr

/-- JS comparison `n OP value` where `n` is known to be a number: the other
operand is coerced with `ToNumber`, and any comparison with `NaN` is false. -/
def jsNumCompare (cmp : Rat → Rat → Bool) (n : Rat) (v : CtxValue) : Bool :=
  match v.jsToNumber with
  | some m => cmp n m
  | none => false

/-- `evaluate(context)` of each expression node.  `rt` is the regex matcher
(`RegExp.test`), see the module docstring. -/
def ContextKeyExpression.evaluate (rt : String → String → Bool) :
    ContextKeyExpression → CtxMap → Bool
  | .defined key, ctx =>
      let value := ctxGet ctx key
      value != .undefined && value != .bool false && value != .num 0 && value != .str ""
  | .equals key value, ctx => ctxGet ctx key == value
  | .notEquals key value, ctx => ctxGet ctx key != value
  | .greater key value, ctx =>
      match ctxGet ctx key with
      | .num n => jsNumCompare (fun a b => b < a) n value
      | _ => false
  | .greaterEquals key value, ctx =>
      match ctxGet ctx key with
      | .num n => jsNumCompare (fun a b => b ≤ a) n value
      | _ => false
  | .smaller key value, ctx =>
      match ctxGet ctx key with
      | .num n => jsNumCompare (fun a b => a < b) n value
      | _ => false
  | .smallerEquals key value, ctx =>
      match ctxGet ctx key with
      | .num n => jsNumCompare (fun a b => a ≤ b) n value
      | _ => false
  | .regex key pattern, ctx =>
      match ctxGet ctx key with
      | .str s => rt pattern s
      | _ => false
  | .inExpr key values, ctx => values.contains (ctxGet ctx key)
  | .not e, ctx => !(e.evaluate rt ctx)
  | .and l r, ctx => l.evaluate rt ctx && r.evaluate rt ctx
  | .or l r, ctx => l.evaluate rt ctx || r.evaluate rt ctx

/-! ### The when-clause parser

The recursive-descent parser of `ContextKeyExpressionParser`, modelled with an
explicit character list, an explicit position, and explicit fuel for the
recursion (the fuel passed by the top-level `parse` is generous enough that it
is never exhausted on the inputs the theorems below touch; exhaustion surfaces
as a parse error, i.e. a `null` result). -/

/-- JS `/[a-zA-Z0-9_.]/` (identifier characters). -/
def isIdentChar (c : Char) : Bool :=
  c.isAlphanum || c = '_' || c = '.'

/-- JS `/[a-zA-Z0-9_.-]/` (unquoted value characters). -/
def isValueChar (c : Char) : Bool :=
  isIdentChar c || c = '-'

/-- Number of leading characters of the list satisfying `p`. -/
def countLeading (p : Char → Bool) : List Char → Nat
  | [] => 0
  | c :: cs => if p c then countLeading p cs + 1 else 0

/-- `skipWhitespace()`: the position after the run of whitespace at `i`. -/
def skipWs (cs : List Char) (i : Nat) : Nat :=
  i + countLeading isWsChar (cs.drop i)

/-- JS `input.substring(i, i + tok.length) === tok` (a substring that runs past
the end of the input is just shorter, hence unequal to a longer token). -/
def tokenAt (cs : List Char) (i : Nat) (tok : List Char) : Bool :=
  (cs.drop i).take tok.length == tok

/-- `peek()`: skip whitespace, then return `&&` or `||` as a two-character
token, a single character otherwise, or the empty token at the end. -/
def peekTok (cs : List Char) (i : Nat) : List Char :=
  let j := skipWs cs i
  if tokenAt cs j ['&', '&'] then ['&', '&']
  else if tokenAt cs j ['|', '|'] then ['|', '|']
  else
    match cs.drop j with
    | [] => []
    | c :: _ => [c]

/-- `consume(token)`: skip whitespace, require the token, advance past it. -/
def consumeTok (cs : List Char) (i : Nat) (tok : List Char) : Except String Nat :=
  let j := skipWs cs i
  if tokenAt cs j tok then .ok (j + tok.length)
  else .error "Expected token"

/-- `peekOperator()`: the operators, tried in source order. -/
def peekOperator (cs : List Char) (i : Nat) : Option (List Char) :=
  [['=', '='], ['!', '='], ['>', '='], ['<', '='], ['>'], ['<'], ['=', '~'],
      ['i', 'n']].find? (tokenAt cs i)

/-- `parseIdentifier()`. -/
def parseIdentifier (cs : List Char) (i : Nat) : Except String (String × Nat) :=
  let j := skipWs cs i
  let n := countLeading isIdentChar (cs.drop j)
  if n = 0 then .error "Expected identifier"
  else .ok (String.mk ((cs.drop j).take n), j + n)

/-- The scan loop of `parseString()`, starting after the opening quote:
returns the content characters (escape characters are kept, exactly as the
source's `substring` does) and the number of characters consumed including the
closing quote; `none` models the `Unterminated string` throw. -/
def stringScan (quote : Char) : List Char → Option (List Char × Nat)
  | [] => none
  | c :: rest =>
    if c = quote then some ([], 1)
    else if c = '\\' then
      match rest with
      | [] => none
      | d :: rest2 => (stringScan quote rest2).map (fun r => (c :: d :: r.1, r.2 + 2))
    else (stringScan quote rest).map (fun r => (c :: r.1, r.2 + 1))

/-- `parseString()`, with `i` at the opening quote. -/
def parseStringVal (cs : List Char) (i : Nat) : Except String (String × Nat) :=
  match cs.drop i with
  | [] => .error "Expected string"
  | q :: rest =>
    match stringScan q rest with
    | none => .error "Unterminated string"
    | some (content, consumed) => .ok (String.mk content, i + 1 + consumed)

/-- The scan loop of `parseRegex()` for a `/pattern/` literal, starting after
the opening slash: characters consumed including the closing slash. -/
def regexScan : List Char → Option Nat
  | [] => none
  | c :: rest =>
    if c = '/' then some 1
    else if c = '\\' then
      match rest with
      | [] => none
      | _ :: rest2 => (regexScan rest2).map (· + 2)
    else (regexScan rest).map (· + 1)

/-- `parseRegex()`: a quoted pattern, or a `/pattern/flags` literal returned
verbatim (slashes and flags included, as the source's `substring` does). -/
def parseRegexVal (cs : List Char) (i : Nat) : Except String (String × Nat) :=
  match cs.drop i with
  | '"' :: _ => parseStringVal cs i
  | '\'' :: _ => parseStringVal cs i
  | '/' :: rest =>
    match regexScan rest with
    | none => .error "Unterminated regex"
    | some consumed =>
      let nf := countLeading (fun c => c = 'g' || c = 'i' || c = 'm' || c = 'u' || c = 'y')
        (cs.drop (i + 1 + consumed))
      .ok (String.mk ((cs.drop i).take (1 + consumed + nf)), i + 1 + consumed + nf)
  | _ => .error "Expected regex"

/-- `parseValue()`: quoted string, `true`/`false`, numeric literal, or an
unquoted word treated as a string. -/
def parseValue (cs : List Char) (i : Nat) : Except String (CtxValue × Nat) :=
  let j := skipWs cs i
  match cs.drop j with
  | '"' :: _ => (parseStringVal cs j).map (fun r => (.str r.1, r.2))
  | '\'' :: _ => (parseStringVal cs j).map (fun r => (.str r.1, r.2))
  | l =>
    if tokenAt cs j ['t', 'r', 'u', 'e'] then .ok (.bool true, j + 4)
    else if tokenAt cs j ['f', 'a', 'l', 's', 'e'] then .ok (.bool false, j + 5)
    else if (match l with
             | c :: rest => c.isDigit || (c = '-' && (rest.head?.elim false Char.isDigit))
             | [] => false) then
      let hasSign := match l with
        | '-' :: _ => true
        | _ => false
      let j1 := if hasSign then j + 1 else j
      let n := countLeading (fun c => c.isDigit || c = '.') (cs.drop j1)
      let scanned := (cs.drop j1).take n
      let intPart := scanned.takeWhile Char.isDigit
      let v : Rat :=
        match scanned.dropWhile Char.isDigit with
        | '.' :: r2 => (digitsToNat intPart : Rat) + digitsToFrac (r2.takeWhile Char.isDigit)
        | _ => (digitsToNat intPart : Rat)
      .ok (.num (if hasSign then -v else v), j1 + n)
    else
      let n := countLeading isValueChar (cs.drop j)
      if n = 0 then .error "Expected value"
      else .ok (.str (String.mk ((cs.drop j).take n)), j + n)

/-- The loop of `parseArray()`, after the opening bracket and the whitespace
following it: collects values until the closing bracket. -/
def parseArrayLoop (cs : List Char) : Nat → Nat → List CtxValue →
    Except String (List CtxValue × Nat)
  | 0, _, _ => .error "out of fuel"
  | fuel + 1, j, acc =>
    if (cs.drop j).head? = some ']' then .ok (acc.reverse, j + 1)
    else do
      let (v, j1) ← parseValue cs j
      let j2 := skipWs cs j1
      let j3 := if (cs.drop j2).head? = some ',' then skipWs cs (j2 + 1) else j2
      parseArrayLoop cs fuel j3 (v :: acc)

/-- `parseArray()`. -/
def parseArray (cs : List Char) (i : Nat) : Except String (List CtxValue × Nat) := do
  let i1 ← consumeTok cs i ['[']
  parseArrayLoop cs (cs.length + 2) (skipWs cs i1) []

/-- `parseTerm()`: a key, optionally followed by an operator and a value. -/
def parseTerm (cs : List Char) (i : Nat) : Except String (ContextKeyExpression × Nat) := do
  let (key, i1) ← parseIdentifier cs (skipWs cs i)
  let i2 := skipWs cs i1
  match peekOperator cs i2 with
  | none => .ok (.defined key, i2)
  | some op => do
    let i3 ← consumeTok cs i2 op
    let i4 := skipWs cs i3
    if op == ['=', '~'] then
      (parseRegexVal cs i4).map (fun r => (.regex key r.1, r.2))
    else if op == ['i', 'n'] then
      (parseArray cs i4).map (fun r => (.inExpr key r.1, r.2))
    else do
      let (v, i5) ← parseValue cs i4
      match op with
      | ['=', '='] => .ok (.equals key v, i5)
      | ['!', '='] => .ok (.notEquals key v, i5)
      | ['>', '='] => .ok (.greaterEquals key v, i5)
      | ['<', '='] => .ok (.smallerEquals key v, i5)
      | ['>'] => .ok (.greater key v, i5)
      | ['<'] => .ok (.smaller key v, i5)
      | _ => .error "Unknown operator"

/-- The mutually recursive expression parsers `parseOrExpr()`, `parseAndExpr()`
(with their `||`/`&&` loops) and `parsePrimary()`, written as one function with
a mode tag so that the recursion is structural on the fuel. -/
inductive ParseMode where
  | orE
  | orL (left : ContextKeyExpression)
  | andE
  | andL (left : ContextKeyExpression)
  | prim
  deriving Repr

/-- One step of the mutually recursive parsers, by mode: `.orE` is
`parseOrExpr()`, `.orL left` its `while` loop, `.andE` is `parseAndExpr()`,
`.andL left` its `while` loop, and `.prim` is `parsePrimary()`. -/
def parseStep : Nat → ParseMode → List Char → Nat → Except String (ContextKeyExpression × Nat)
  | 0, _, _, _ => .error "out of fuel"
  | fuel + 1, .orE, cs, i => do
    let (left, i1) ← parseStep fuel .andE cs i
    parseStep fuel (.orL left) cs i1
  | fuel + 1, .orL left, cs, i =>
    if peekTok cs i == ['|', '|'] then do
      let i1 ← consumeTok cs i ['|', '|']
      let (right, i2) ← parseStep fuel .andE cs i1
      parseStep fuel (.orL (.or left right)) cs i2
    else .ok (left, i)
  | fuel + 1, .andE, cs, i => do
    let (left, i1) ← parseStep fuel .prim cs i
    parseStep fuel (.andL left) cs i1
  | fuel + 1, .andL left, cs, i =>
    if peekTok cs i == ['&', '&'] then do
      let i1 ← consumeTok cs i ['&', '&']
      let (right, i2) ← parseStep fuel .prim cs i1
      parseStep fuel (.andL (.and left right)) cs i2
    else .ok (left, i)
  | fuel + 1, .prim, cs, i =>
    let j := skipWs cs i
    if peekTok cs j == ['!'] then do
      let i1 ← consumeTok cs j ['!']
      let (e, i2) ← parseStep fuel .prim cs i1
      .ok (.not e, i2)
    else if peekTok cs j == ['('] then do
      let i1 ← consumeTok cs j ['(']
      let (e, i2) ← parseStep fuel .orE cs i1
      let i3 ← consumeTok cs i2 [')']
      .ok (e, i3)
    else parseTerm cs j

/-- `parseOrExpr()` (lowest precedence). -/
def parseOrExpr (fuel : Nat) (cs : List Char) (i : Nat) :
    Except String (ContextKeyExpression × Nat) :=
  parseStep fuel .orE cs i

/-- `ContextKeyExpression.parse(when)`: `null` on a falsy input, otherwise run
the parser on the trimmed input, `null` on any error or on trailing input. -/
def ContextKeyExpression.parse (whenStr : String) : Option ContextKeyExpression :=
  if whenStr = "" then none
  else
    let cs := jsTrim whenStr.data
    match parseOrExpr (4 * cs.length + 8) cs 0 with
    | .error _ => none
    | .ok (e, i) => if i < cs.length then none else some e


/-! ### The keybinding resolver (`KeybindingResolver.ts`) -/

/-- `Platform` in `services/keybindings/types.ts`. -/
inductive Platform where
  | mac
  | win
  | linux
  deriving DecidableEq, Repr

/-- A keybinding (`Keybinding` in `services/keybindings/types.ts`). -/
structure Keybinding where
  id : String
  commandId : String
  key : String
  mac : Option String
  win : Option String
  linux : Option String
  when : Option String
  deriving DecidableEq, Repr

/-- JS `String.prototype.split(sep)` for a single-character separator:
`"".split(sep)` is `[""]`, adjacent separators produce empty pieces. -/
def splitChars (sep : Char) : List Char → List (List Char)
  | [] => [[]]
  | c :: rest =>
    match splitChars sep rest with
    | [] => [[c]]
    | h :: t => if c = sep then [] :: h :: t else (c :: h) :: t

/-- JS `keySequence.split(' ')` on a `String`. -/
def jsSplitSpace (s : String) : List String :=
  (splitChars ' ' s.data).map String.mk

/-- JS `chord.split('+')` on a `String`. -/
def jsSplitPlus (s : String) : List String :=
  (splitChars '+' s.data).map String.mk

/-- The canonical modifier order per platform (spec §4.3: macOS-style
platforms use `Ctrl, Alt, Shift, Cmd`; others `Ctrl, Shift, Alt, Meta`). -/
def modifierOrder : Platform → List String
  | .mac => ["Ctrl", "Alt", "Shift", "Cmd"]
  | .win => ["Ctrl", "Shift", "Alt", "Meta"]
  | .linux => ["Ctrl", "Shift", "Alt", "Meta"]

/-- Modelled from the spec: `normalizeKeybinding` from
`services/keybindings/keybindingUtils.ts`, a file that is not under `src/`
(only its unit tests and its callers are).  Per spec §4.3, "registered
key-sequence strings are normalized through the *same* platform-order rule at
registration time": each chord of the space-separated sequence is split on
`+`, its modifier tokens are re-emitted in the platform's canonical order, and
the remaining tokens follow in their original order.  This matches every case
of the `normalizeKeybinding` unit tests. -/
def normalizeKeybinding (key : String) (platform : Platform) : String :=
  let normChord := fun (chord : String) =>
    let parts := jsSplitPlus chord
    let mods := (modifierOrder platform).filter (fun m => parts.contains m)
    let rest := parts.filter (fun t => !(modifierOrder platform).contains t)
    String.intercalate "+" (mods ++ rest)
  String.intercalate " " ((jsSplitSpace key).map normChord)

/-- `ResolutionResult` in `services/keybindings/types.ts`. -/
inductive ResolutionResult where
  | found (commandId : String)
  | moreChordsNeeded
  | noMatch
  deriving DecidableEq, Repr

/-- JS `Map.get`. -/
def mapGet {α : Type} (m : List (String × α)) (k : String) : Option α :=
  match m with
  | [] => Option.none
  | (k', v) :: rest => if k' = k then some v else mapGet rest k

/-- JS `Map.set`: replace in place if the key is present (insertion order is
kept), append otherwise. -/
def mapSet {α : Type} (m : List (String × α)) (k : String) (v : α) : List (String × α) :=
  match m with
  | [] => [(k, v)]
  | (k', v') :: rest => if k' = k then (k, v) :: rest else (k', v') :: mapSet rest k v

/-- JS `Map.delete`: remove the entry for the key (keys are unique). -/
def mapDelete {α : Type} (m : List (String × α)) (k : String) : List (String × α) :=
  match m with
  | [] => []
  | (k', v') :: rest => if k' = k then rest else (k', v') :: mapDelete rest k

/-- The mutable state of a `KeybindingResolver`: the flat registration list,
the leading-chord index, and the platform captured at construction. -/
structure KeybindingResolverState where
  platform : Platform
  keybindings : List Keybinding
  keybindingMap : List (String × List Keybinding)
  deriving DecidableEq, Repr

/-- A fresh `new KeybindingResolver()` on the given platform. -/
def KeybindingResolverState.init (p : Platform) : KeybindingResolverState :=
  { platform := p, keybindings := [], keybindingMap := [] }

/-- `getKeySequence(keybinding)`: the platform override if present, with the
JS `||` falling back to `key` on an empty override. -/
def getKeySequence (p : Platform) (kb : Keybinding) : String :=
  let override : Option String :=
    match p with
    | .mac => kb.mac
    | .win => kb.win
    | .linux => kb.linux
  match override with
  | some o => if o = "" then kb.key else o
  | none => kb.key

/-- The `normalizedKeybinding` record built at the top of
`KeybindingResolver.register`. -/
def normalizeKb (p : Platform) (kb : Keybinding) : Keybinding :=
  { id := kb.id
    commandId := kb.commandId
    key := normalizeKeybinding kb.key p
    mac := kb.mac.map (normalizeKeybinding · .mac)
    win := kb.win.map (normalizeKeybinding · .win)
    linux := kb.linux.map (normalizeKeybinding · .linux)
    when := kb.when }

/-- The rest of `KeybindingResolver.register` after normalization: push onto
the flat list and index under the first chord of the platform-resolved
sequence (a sequence that is empty — JS-falsy — is not indexed). -/
def KeybindingResolverState.registerNormalized (s : KeybindingResolverState)
    (nkb : Keybinding) : KeybindingResolverState :=
  let keybindings := s.keybindings ++ [nkb]
  let keySequence := getKeySequence s.platform nkb
  if keySequence = "" then { s with keybindings := keybindings }
  else
    let firstChord := (jsSplitSpace keySequence).headD ""
    let existing := (mapGet s.keybindingMap firstChord).getD []
    { s with
      keybindings := keybindings
      keybindingMap := mapSet s.keybindingMap firstChord (existing ++ [nkb]) }

/-- `KeybindingResolver.register(keybinding)`: normalize, then push and
index. -/
def KeybindingResolverState.register (s : KeybindingResolverState) (kb : Keybinding) :
    KeybindingResolverState :=
  s.registerNormalized (normalizeKb s.platform kb)

/-- JS `Array.prototype.findIndex`, as an `Option Nat`. -/
def jsFindIndex {α : Type} (p : α → Bool) : List α → Option Nat
  | [] => Option.none
  | x :: xs => if p x then some 0 else (jsFindIndex p xs).map (· + 1)

/-- JS `array.splice(i, 1)`: remove the element at index `i`. -/
def jsSplice1 {α : Type} : List α → Nat → List α
  | [], _ => []
  | _ :: xs, 0 => xs
  | x :: xs, n + 1 => x :: jsSplice1 xs n

/-- JS `array[i]` as an `Option`. -/
def listGet? {α : Type} : List α → Nat → Option α
  | [], _ => Option.none
  | x :: _, 0 => some x
  | _ :: xs, n + 1 => listGet? xs n

/-- `KeybindingResolver.unregister(id)`. -/
def KeybindingResolverState.unregister (s : KeybindingResolverState) (id : String) :
    KeybindingResolverState :=
  match jsFindIndex (fun kb => kb.id = id) s.keybindings with
  | none => s
  | some index =>
    match listGet? s.keybindings index with
    | none => s
    | some kb =>
      let keybindings := jsSplice1 s.keybindings index
      let keySequence := getKeySequence s.platform kb
      if keySequence = "" then { s with keybindings := keybindings }
      else
        let firstChord := (jsSplitSpace keySequence).headD ""
        match mapGet s.keybindingMap firstChord with
        | none => { s with keybindings := keybindings }
        | some existing =>
          let existing' :=
            match jsFindIndex (fun kb2 => kb2.id = id) existing with
            | some mapIndex => jsSplice1 existing mapIndex
            | none => existing
          if existing' = [] then
            { s with
              keybindings := keybindings
              keybindingMap := mapDelete s.keybindingMap firstChord }
          else
            { s with
              keybindings := keybindings
              keybindingMap := mapSet s.keybindingMap firstChord existing' }

/-- The context filter of `resolve`: `if (!kb.when) return true`, an
unparseable when-clause passes, otherwise evaluate it. -/
def whenPass (rt : String → String → Bool) (context : CtxMap) (w : Option String) : Bool :=
  match w with
  | none => true
  | some str =>
    if str = "" then true
    else
      match ContextKeyExpression.parse str with
      | none => true
      | some expr => expr.evaluate rt context

/-- `KeybindingResolver.resolve(chords, context)`. -/
def KeybindingResolverState.resolve (rt : String → String → Bool)
    (s : KeybindingResolverState) (chords : List String) (context : CtxMap) :
    ResolutionResult :=
  match chords with
  | [] => .noMatch
  | firstChord :: _ =>
    let candidates := (mapGet s.keybindingMap firstChord).getD []
    let chordMatched := candidates.filter (fun kb =>
      let keySequence := getKeySequence s.platform kb
      if keySequence = "" then false
      else
        let kbChords := jsSplitSpace keySequence
        if chords.length > kbChords.length then false
        else kbChords.take chords.length == chords)
    if chordMatched.isEmpty then .noMatch
    else
      let contextMatched := chordMatched.filter (fun kb => whenPass rt context kb.when)
      match contextMatched with
      | [] => .noMatch
      | binding :: _ =>
        let keySequence := getKeySequence s.platform binding
        if keySequence = "" then .noMatch
        else
          let bindingChords := jsSplitSpace keySequence
          if chords.length < bindingChords.length then .moreChordsNeeded
          else .found binding.commandId

/-- `KeybindingResolver.getAll()` (returns a copy of the flat list). -/
def KeybindingResolverState.getAll (s : KeybindingResolverState) : List Keybinding :=
  s.keybindings

/-- `KeybindingResolver.lookupKeybinding(commandId)`. -/
def KeybindingResolverState.lookupKeybinding (s : KeybindingResolverState)
    (commandId : String) : Option Keybinding :=
  s.keybindings.find? (fun kb => kb.commandId = commandId)

/-- The resolution algorithm as the specification states it (spec §4.4 /
claim C2): one pass over the candidates indexed under the first pending chord
keeping those whose platform-resolved sequence is at least as long as the
pending chords, agrees token-for-token on the pending prefix, and whose
when-clause passes; then the first survivor in registration order decides the
outcome by comparing its full length with the pending length. -/
def KeybindingResolverState.resolveSpec (rt : String → String → Bool)
    (s : KeybindingResolverState) (chords : List String) (context : CtxMap) :
    ResolutionResult :=
  match chords with
  | [] => .noMatch
  | firstChord :: _ =>
    let candidates := (mapGet s.keybindingMap firstChord).getD []
    let surviving := candidates.filter (fun kb =>
      let kbChords := jsSplitSpace (getKeySequence s.platform kb)
      decide (chords.length ≤ kbChords.length) && kbChords.take chords.length == chords
        && whenPass rt context kb.when)
    match surviving with
    | [] => .noMatch
    | binding :: _ =>
      if (jsSplitSpace (getKeySequence s.platform binding)).length = chords.length then
        .found binding.commandId
      else .moreChordsNeeded

/-! ### The hierarchical context store (`ContextKeyService.ts`)

JS objects live beyond their presence in the service's `contexts` map: a child
context holds a direct object reference to its parent.  The embedding therefore
keeps a `heap` of every context object ever created (objects are never
collected while reachable) next to `contextsMap`, the set of ids currently in
the `contexts` map; `contexts.get(id)` only succeeds for ids in the map, while
following a parent object reference reads the heap directly.  The
`element.dataset.keybindingContext` markers are the `bindings` association
list from element ids to context ids; the DOM parent relation is the
caller-supplied `dom` function, and DOM walks carry explicit fuel. -/

/-- A context object (`Context` in `services/context/types.ts`): its parent
object reference (by heap id) and its own value record. -/
structure ContextRecord where
  parent : Option Nat
  values : List (String × CtxValue)
  deriving DecidableEq, Repr

/-- Association-list read with `Nat` keys (JS `Map.get` / property read). -/
def natMapGet {α : Type} (m : List (Nat × α)) (k : Nat) : Option α :=
  match m with
  | [] => none
  | (k', v) :: rest => if k' = k then some v else natMapGet rest k

/-- Association-list write with `Nat` keys (JS `Map.set` / property write):
replace in place, else append. -/
def natMapSet {α : Type} (m : List (Nat × α)) (k : Nat) (v : α) : List (Nat × α) :=
  match m with
  | [] => [(k, v)]
  | (k', v') :: rest => if k' = k then (k, v) :: rest else (k', v') :: natMapSet rest k v

/-- The state of the `ContextKeyService`. -/
structure ContextStore where
  heap : List (Nat × ContextRecord)
  contextsMap : List Nat
  bindings : List (Nat × Nat)
  nextId : Nat
  deriving DecidableEq, Repr

/-- `new ContextKeyService()`: the root context gets id 0 and is put in the
map; `nextId` continues from 1. -/
def ContextStore.initStore : ContextStore :=
  { heap := [(0, { parent := none, values := [] })]
    contextsMap := [0]
    bindings := []
    nextId := 1 }

/-- Read a context object through a reference (the heap). -/
def ContextStore.heapGet (s : ContextStore) (i : Nat) : Option ContextRecord :=
  natMapGet s.heap i

/-- `this.contexts.get(id)`: only ids currently in the map resolve. -/
def ContextStore.contextsGet (s : ContextStore) (cid : Nat) : Option ContextRecord :=
  if s.contextsMap.contains cid then s.heapGet cid else none

/-- `contextId ? this.contexts.get(contextId) : this.rootContext`: the
argument is number-truthy, so id 0 (and an absent argument) selects the root
context *object* (not a map lookup). -/
def ContextStore.resolveCtxArg (s : ContextStore) (oid : Option Nat) : Option ContextRecord :=
  match oid with
  | some cid => if cid = 0 then s.heapGet 0 else s.contextsGet cid
  | none => s.heapGet 0

/-- The recursion of `getValue(key, contextId)`: own record first
(`key in context.values`, so an entry whose value is `undefined` still wins),
then the parent *by id through the map*; a parent id missing from the map ends
the walk with `undefined`. -/
def ContextStore.getValueAux (s : ContextStore) (key : String) :
    Nat → ContextRecord → CtxValue
  | 0, _ => .undefined
  | fuel + 1, node =>
    match node.values.lookup key with
    | some v => v
    | none =>
      match node.parent with
      | some pid =>
        match s.resolveCtxArg (some pid) with
        | none => .undefined
        | some r => s.getValueAux key fuel r
      | none => .undefined

/-- `ContextKeyService.getValue(key, contextId?)`. -/
def ContextStore.getValue (s : ContextStore) (key : String) (oid : Option Nat) : CtxValue :=
  match s.resolveCtxArg oid with
  | none => .undefined
  | some node => s.getValueAux key (s.heap.length + 1) node

/-- The merge loop of `getContext`: copy entries of the current record that
the result does not yet have (child entries shadow ancestors), then follow the
parent *object reference* (the heap, regardless of map membership). -/
def ContextStore.getContextAux (s : ContextStore) :
    Nat → ContextRecord → CtxMap → CtxMap
  | 0, _, result => result
  | fuel + 1, node, result =>
    let merged := node.values.foldl
      (fun res kv => if (res.lookup kv.1).isSome then res else res ++ [kv]) result
    match node.parent with
    | some pid =>
      match s.heapGet pid with
      | none => merged
      | some r => s.getContextAux fuel r merged
    | none => merged

/-- `ContextKeyService.getContext(contextId?)`: an id absent from the map
yields the empty record. -/
def ContextStore.getContext (s : ContextStore) (oid : Option Nat) : CtxMap :=
  match s.resolveCtxArg oid with
  | none => []
  | some node => s.getContextAux (s.heap.length + 1) node []

/-- `ContextKeyService.getContextForElement(element)`: walk the DOM ancestor
chain from the element itself until a `dataset.keybindingContext` marker is
found. -/
def ContextStore.getContextForElement (s : ContextStore) (dom : Nat → Option Nat) :
    Nat → Option Nat → Option Nat
  | 0, _ => none
  | _, none => none
  | fuel + 1, some e =>
    match natMapGet s.bindings e with
    | some cid => some cid
    | none => s.getContextForElement dom fuel (dom e)

/-- Write one key in the record stored at heap id `i`. -/
def heapWrite (heap : List (Nat × ContextRecord)) (i : Nat) (key : String)
    (v : CtxValue) : List (Nat × ContextRecord) :=
  heap.map (fun e =>
    if e.1 = i then (e.1, { e.2 with values := mapSet e.2.values key v }) else e)

/-- `ContextKeyService.setValue(key, value)`: write into the root context
object. -/
def ContextStore.setValue (s : ContextStore) (key : String) (v : CtxValue) : ContextStore :=
  { s with heap := heapWrite s.heap 0 key v }

/-- `ContextKeyService.setValueInContext(contextId, key, value)`: `none`
models the `Context not found` throw (the lookup goes through the map). -/
def ContextStore.setValueInContext (s : ContextStore) (cid : Nat) (key : String)
    (v : CtxValue) : Option ContextStore :=
  match s.contextsGet cid with
  | none => none
  | some _ => some { s with heap := heapWrite s.heap cid key v }

/-- `ContextKeyService.deleteContext(contextId)`: remove the id from the map;
the object, its children's parent references, and the element markers are
untouched. -/
def ContextStore.deleteContext (s : ContextStore) (cid : Nat) : ContextStore :=
  { s with contextsMap := s.contextsMap.erase cid }

/-- `ScopedContextKeyService.dispose()`. -/
def ContextStore.disposeScoped (s : ContextStore) (cid : Nat) : ContextStore :=
  s.deleteContext cid

/-- `ContextKeyService.createScoped(element)`: resolve the parent scope by
walking the element's DOM ancestry (starting at `element.parentElement`), make
the new context with a fresh id, register it in the map, and mark the element.
`parentContextId ?` is number-truthy and `parentContext || this.rootContext`
falls back to the root object, so id 0 or a stale id resolves to the root. -/
def ContextStore.createScoped (s : ContextStore) (dom : Nat → Option Nat)
    (domFuel : Nat) (elemId : Nat) : ContextStore × Nat :=
  let parentContextId := s.getContextForElement dom domFuel (dom elemId)
  let parentObjId : Nat :=
    match parentContextId with
    | some pid =>
      if pid = 0 then 0
      else
        match s.contextsGet pid with
        | some _ => pid
        | none => 0
    | none => 0
  let newId := s.nextId
  ({ heap := s.heap ++ [(newId, { parent := some parentObjId, values := [] })]
     contextsMap := s.contextsMap ++ [newId]
     bindings := natMapSet s.bindings elemId newId
     nextId := newId + 1 }, newId)

/-- `ContextKey.reset()` for a key created with no default value: it calls
`setValue(key, undefined)` on its scope, which *stores* an explicit
`undefined` entry in that scope's record. -/
def ContextStore.contextKeyReset (s : ContextStore) (cid : Nat) (key : String) :
    Option ContextStore :=
  s.setValueInContext cid key .undefined

/-! ### The dispatcher (`KeybindingService.ts`) and the command registry
(`CommandRegistry.ts`) -/

/-- The facts about `event.target` the dispatcher reads: `null` (or a
non-`HTMLElement` target) is `none`. -/
structure TargetInfo where
  tagName : String
  isContentEditable : Bool
  elemId : Nat
  deriving DecidableEq, Repr

/-- A raw `KeyboardEvent` as far as the dispatcher reads it. -/
structure KeyEvt where
  code : String
  key : String
  ctrlKey : Bool
  altKey : Bool
  shiftKey : Bool
  metaKey : Bool
  target : Option TargetInfo
  deriving DecidableEq, Repr

/-- JS `String.prototype.toLowerCase` (ASCII). -/
def jsToLower (s : String) : String :=
  String.mk (s.data.map Char.toLower)

/-- JS `String.prototype.toUpperCase` (ASCII). -/
def jsToUpper (s : String) : String :=
  String.mk (s.data.map Char.toUpper)

/-- Boolean prefix test on character lists (with patterns arranged so that
`charsPrefixOf [] l` reduces definitionally for a free `l`). -/
def charsPrefixOf : List Char → List Char → Bool
  | [], _ => true
  | _ :: _, [] => false
  | a :: as, b :: bs => a == b && charsPrefixOf as bs

/-- JS `String.prototype.startsWith`. -/
def jsStartsWith (s pre : String) : Bool :=
  charsPrefixOf pre.data s.data

/-- `KeybindingService.isInputElement(target)`: a `null` or non-element
target is not an input element; otherwise `input`/`textarea` tags and
content-editable elements are. -/
def isInputElement (target : Option TargetInfo) : Bool :=
  match target with
  | none => false
  | some t =>
    let tagName := jsToLower t.tagName
    tagName = "input" || tagName = "textarea" || t.isContentEditable

/-- `KeybindingService.isModifierOnlyKey(event)`. -/
def isModifierOnlyKey (ev : KeyEvt) : Bool :=
  ["MetaLeft", "MetaRight", "ControlLeft", "ControlRight", "AltLeft", "AltRight",
      "ShiftLeft", "ShiftRight"].contains ev.code

/-- The `specialKeys` table of `normalizeKey` (`code in specialKeys`),
matching on the character list of the code. -/
def specialKeysLookup (code : String) : Option String :=
  match code.data with
  | ['A', 'r', 'r', 'o', 'w', 'L', 'e', 'f', 't'] => some "Left"
  | ['A', 'r', 'r', 'o', 'w', 'R', 'i', 'g', 'h', 't'] => some "Right"
  | ['A', 'r', 'r', 'o', 'w', 'U', 'p'] => some "Up"
  | ['A', 'r', 'r', 'o', 'w', 'D', 'o', 'w', 'n'] => some "Down"
  | ['E', 's', 'c', 'a', 'p', 'e'] => some "Escape"
  | ['E', 'n', 't', 'e', 'r'] => some "Enter"
  | ['S', 'p', 'a', 'c', 'e'] => some "Space"
  | ['T', 'a', 'b'] => some "Tab"
  | ['B', 'a', 'c', 'k', 's', 'p', 'a', 'c', 'e'] => some "Backspace"
  | ['D', 'e', 'l', 'e', 't', 'e'] => some "Delete"
  | ['H', 'o', 'm', 'e'] => some "Home"
  | ['E', 'n', 'd'] => some "End"
  | ['P', 'a', 'g', 'e', 'U', 'p'] => some "PageUp"
  | ['P', 'a', 'g', 'e', 'D', 'o', 'w', 'n'] => some "PageDown"
  | ['I', 'n', 's', 'e', 'r', 't'] => some "Insert"
  | _ => Option.none

/-- `KeybindingService.normalizeKey(code, key)`: special keys, function keys
(`F` plus at most two more characters), physical letter (`KeyX`) and digit
(`DigitN`) positions, numpad codes kept verbatim, a single-character logical
key uppercased, and otherwise the logical key itself — or `null` when it is
empty. -/
def normalizeKey (code key : String) : Option String :=
  match specialKeysLookup code with
  | some t => some t
  | none =>
    if jsStartsWith code "F" && decide (code.data.length ≤ 3) then some code
    else if jsStartsWith code "Key" then some (String.mk (code.data.drop 3))
    else if jsStartsWith code "Digit" then some (String.mk (code.data.drop 5))
    else if jsStartsWith code "Numpad" then some code
    else if key.data.length = 1 then some (jsToUpper key)
    else if key = "" then none
    else some key

/-- The modifier token list of `eventToChord`, in the platform-fixed order:
`Ctrl, Alt, Shift, Cmd` on mac, `Ctrl, Shift, Alt, Meta` elsewhere. -/
def modifierParts (p : Platform) (ev : KeyEvt) : List String :=
  match p with
  | .mac =>
    (if ev.ctrlKey then ["Ctrl"] else []) ++ (if ev.altKey then ["Alt"] else []) ++
      (if ev.shiftKey then ["Shift"] else []) ++ (if ev.metaKey then ["Cmd"] else [])
  | _ =>
    (if ev.ctrlKey then ["Ctrl"] else []) ++ (if ev.shiftKey then ["Shift"] else []) ++
      (if ev.altKey then ["Alt"] else []) ++ (if ev.metaKey then ["Meta"] else [])

/-- `KeybindingService.eventToChord(event)`. -/
def eventToChord (p : Platform) (ev : KeyEvt) : Option String :=
  match normalizeKey ev.code ev.key with
  | none => none
  | some k => some (String.intercalate "+" (modifierParts p ev ++ [k]))

/-- The chord codec of the dispatcher as a whole (spec §4.3): the guards at
the head of `handleKeyDown` (text-editing focus, standalone modifier) and the
event-to-chord conversion. -/
def chordOf (p : Platform) (ev : KeyEvt) : Option String :=
  if isInputElement ev.target then none
  else if isModifierOnlyKey ev then none
  else eventToChord p ev

/-- A command of the external command registry (`Command` in `@vspdf/types`):
only the runtime precondition `when` matters to the dispatcher boundary; the
handler's effect is tracked as the boolean "the handler ran".  `κ` is the type
of the rich `CommandContext`. -/
structure Command (κ : Type) where
  when : Option (κ → Bool)

/-- The `CommandRegistry`'s command map. -/
abbrev CommandRegistry (κ : Type) := List (String × Command κ)

/-- `CommandRegistry.canExecute(commandId, context)`. -/
def CommandRegistry.canExecute {κ : Type} (reg : CommandRegistry κ) (commandId : String)
    (ctx : κ) : Bool :=
  match mapGet reg commandId with
  | none => false
  | some cmd =>
    match cmd.when with
    | none => true
    | some w => w ctx

/-- Whether `CommandRegistry.execute(commandId, context)` reaches the
command's handler: a missing command or a failing `when` predicate returns
early (with a console warning) without running it. -/
def CommandRegistry.executeRuns {κ : Type} (reg : CommandRegistry κ) (commandId : String)
    (ctx : κ) : Bool :=
  match mapGet reg commandId with
  | none => false
  | some cmd =>
    match cmd.when with
    | none => true
    | some w => w ctx

/-- The dispatcher's mutable state: the chord buffer and whether the chord
timeout is armed. -/
structure DispatchState where
  currentChords : List String
  chordTimeoutArmed : Bool
  deriving DecidableEq, Repr

/-- The dispatcher's `Idle` state. -/
def DispatchState.idle : DispatchState :=
  { currentChords := [], chordTimeoutArmed := false }

/-- `KeybindingService.resetChords()`. -/
def DispatchState.resetChords (_ : DispatchState) : DispatchState :=
  .idle

/-- The chord timer firing after 5s of inactivity: it calls `resetChords`. -/
def DispatchState.fireChordTimeout (d : DispatchState) : DispatchState :=
  d.resetChords

/-- The externally observable per-event effects of `handleKeyDown`:
whether the event was consumed (`preventDefault` + `stopPropagation`),
whether the command handler ran, and the resolution outcome if the call
reached resolution. -/
structure DispatchEffects where
  consumed : Bool
  handlerRan : Bool
  outcome : Option ResolutionResult
  deriving DecidableEq, Repr

/-- No externally observable effect. -/
def DispatchEffects.none : DispatchEffects :=
  { consumed := false, handlerRan := false, outcome := Option.none }

/-- `KeybindingService.handleKeyDown(event)`.  The collaborators the method
reads are parameters: the platform, the external command registry and its
rich context (from `commandContextProvider.getContext()`), the resolver state,
the context store with the DOM parent relation, and the regex matcher.  On
`Found` the event is consumed and `commandRegistry.execute` is started; on
`MoreChordsNeeded` the event is consumed, the buffer keeps the chords and the
timer is (re-)armed; on `NoMatch` the buffer is discarded and the event is
left unconsumed. -/
def handleKeyDown {κ : Type} (p : Platform) (reg : CommandRegistry κ) (cmdCtx : κ)
    (rs : KeybindingResolverState) (store : ContextStore) (dom : Nat → Option Nat)
    (domFuel : Nat) (rt : String → String → Bool) (ev : KeyEvt) (d : DispatchState) :
    DispatchState × DispatchEffects :=
  if isInputElement ev.target then (d, .none)
  else if isModifierOnlyKey ev then (d, .none)
  else
    match eventToChord p ev with
    | Option.none => (d, .none)
    | some chord =>
      let currentChords := d.currentChords ++ [chord]
      let contextId := store.getContextForElement dom domFuel (ev.target.map (·.elemId))
      let context := store.getContext contextId
      let result := rs.resolve rt currentChords context
      match result with
      | .found commandId =>
        (DispatchState.idle,
         { consumed := true
           handlerRan := reg.executeRuns commandId cmdCtx
           outcome := some result })
      | .moreChordsNeeded =>
        ({ currentChords := currentChords, chordTimeoutArmed := true },
         { consumed := true, handlerRan := false, outcome := some result })
      | .noMatch =>
        (DispatchState.idle,
         { consumed := false, handlerRan := false, outcome := some result })

/-! ### Concrete scenario states used by the theorems -/

/-- A regex matcher for concrete evaluations (none of the concrete
when-clauses below contain a regex node, so any matcher gives the same
results). -/
def noRegex : String → String → Bool := fun _ _ => false

/-- A keybinding with only the required fields, as the registration sites in
the repository usually write them. -/
def kbOf (id commandId key : String) (w : Option String) : Keybinding :=
  { id := id, commandId := commandId, key := key, mac := Option.none,
    win := Option.none, linux := Option.none, when := w }

/-- A DOM with no parent relation. -/
def noDom : Nat → Option Nat := fun _ => Option.none

/-- A small DOM: element 2 is a child of element 1, element 3 of element 2. -/
def demoDom : Nat → Option Nat := fun e =>
  match e with
  | 2 => some 1
  | 3 => some 2
  | _ => Option.none

/-- A registry with one command whose runtime precondition always fails. -/
def cmdOneRegistry : CommandRegistry Unit :=
  [("cmd.one", { when := some (fun _ => false) })]

/-- A resolver with `Ctrl+P` bound to `cmd.one`. -/
def ctrlPResolver : KeybindingResolverState :=
  (KeybindingResolverState.init .linux).register (kbOf "kb.p" "cmd.one" "Ctrl+P" Option.none)

/-- A `Ctrl+P` key press outside any input element. -/
def ctrlPEvent : KeyEvt :=
  { code := "KeyP", key := "p", ctrlKey := true, altKey := false, shiftKey := false,
    metaKey := false, target := Option.none }

/-- Two bindings on the same chord, gated by `x` and `!x`, in that
registration order. -/
def twoBindResolver : KeybindingResolverState :=
  ((KeybindingResolverState.init .linux).register
    (kbOf "kb1" "cmd1" "Ctrl+K" (some "x"))).register
    (kbOf "kb2" "cmd2" "Ctrl+K" (some "!x"))

/-- A resolver with the two-chord sequence `Ctrl+K Ctrl+B` bound. -/
def twoChordResolver : KeybindingResolverState :=
  (KeybindingResolverState.init .linux).register
    (kbOf "kb.seq" "cmd.two" "Ctrl+K Ctrl+B" Option.none)

/-- A `Ctrl+K` key press. -/
def ctrlKEvent : KeyEvt :=
  { ctrlPEvent with code := "KeyK", key := "k" }

/-- A `Ctrl+X` key press. -/
def ctrlXEvent : KeyEvt :=
  { ctrlPEvent with code := "KeyX", key := "x" }

/-- A `Ctrl+B` key press. -/
def ctrlBEvent : KeyEvt :=
  { ctrlPEvent with code := "KeyB", key := "b" }

/-- One `handleKeyDown` call against the two-chord resolver, with an empty
command registry and a fresh context store. -/
def dispatchStep (ev : KeyEvt) (d : DispatchState) : DispatchState × DispatchEffects :=
  handleKeyDown .linux ([] : CommandRegistry Unit) () twoChordResolver
    ContextStore.initStore noDom 3 noRegex ev d

/-- A key press whose code is unrecognized and whose logical key is empty
(as browsers deliver for some dead-key and IME events). -/
def unidentifiedEvent : KeyEvt :=
  { code := "Unidentified", key := "", ctrlKey := false, altKey := false,
    shiftKey := false, metaKey := false, target := Option.none }

/-- Root with `a = 1`; scope 1 on element 1; scope 2 on element 2 (a child of
element 1), so scope 2's parent is scope 1. -/
def scopeStoreC : ContextStore :=
  (((ContextStore.initStore.setValue "a" (.num 1)).createScoped demoDom 5 1).1.createScoped
    demoDom 5 2).1

/-- `scopeStoreC` after disposing the middle scope 1. -/
def scopeStoreD : ContextStore :=
  scopeStoreC.disposeScoped 1

/-- Parent scope 1 with `theme = "dark"`, child scope 2 with
`theme = "light"`. -/
def themeStore : ContextStore :=
  let s1 := (ContextStore.initStore.createScoped demoDom 5 1).1
  let s2 := (s1.setValueInContext 1 "theme" (.str "dark")).getD s1
  let s3 := (s2.createScoped demoDom 5 2).1
  (s3.setValueInContext 2 "theme" (.str "light")).getD s3

/-- `themeStore` after `ContextKey.reset()` on key `theme` of scope 2 (a key
handle with no default value), which stores an explicit `undefined` entry. -/
def themeStoreReset : ContextStore :=
  (themeStore.contextKeyReset 2 "theme").getD themeStore

/-- The chain of context records `getValue` visits from a starting record:
the record itself, then the record its parent id resolves to through the map
(`resolveCtxArg`), and so on while fuel lasts. -/
def ContextStore.valueChain (s : ContextStore) : Nat → ContextRecord → List ContextRecord
  | 0, _ => []
  | fuel + 1, node =>
    node ::
      (match node.parent with
       | some pid =>
         match s.resolveCtxArg (some pid) with
         | Option.none => []
         | some r => s.valueChain fuel r
       | Option.none => [])

/-- The value of the first record in the chain that has an entry for the key
(an entry whose stored value is `undefined` counts), or `undefined` when no
record in the chain has one. -/
def firstEntry (key : String) : List ContextRecord → CtxValue
  | [] => .undefined
  | node :: rest =>
    match node.values.lookup key with
    | some v => v
    | Option.none => firstEntry key rest

/-- A key press with all four modifiers held and the physical `A` key. -/
def allModsEvent : KeyEvt :=
  { code := "KeyA", key := "a", ctrlKey := true, altKey := true, shiftKey := true,
    metaKey := true, target := Option.none }

/-! ## Theorems about the claims -/

/-- C1: refuted by the code (and established here at the failing input): on a
`Found` resolution, `handleKeyDown` never consults `canExecute`; it calls
`preventDefault`/`stopPropagation` unconditionally and then starts
`commandRegistry.execute`, whose internal precondition check merely skips the
handler.  At the concrete input — `Ctrl+P` bound to `cmd.one` whose runtime
precondition fails — the precondition is false, yet the event is consumed
(while the handler does not run). -/
theorem found_consumes_event_even_when_precondition_fails :
    CommandRegistry.canExecute cmdOneRegistry "cmd.one" () = false ∧
    (handleKeyDown .linux cmdOneRegistry () ctrlPResolver ContextStore.initStore noDom 3
        noRegex ctrlPEvent .idle).2 =
      { consumed := true, handlerRan := false, outcome := some (.found "cmd.one") } := by
  decide

/-- C4: `parse` is a total function into `Option` (it never throws; every
syntax error yields `null`), `parse "a &&"` is `null`, and in
`KeybindingResolver.resolve` the context filter passes every candidate whose
when-clause is absent or fails to parse, for every context map and regex
matcher. -/
theorem parse_error_yields_null_and_passes_filter :
    ContextKeyExpression.parse "a &&" = Option.none ∧
    (∀ (rt : String → String → Bool) (context : CtxMap),
      whenPass rt context Option.none = true) ∧
    (∀ (rt : String → String → Bool) (context : CtxMap) (str : String),
      ContextKeyExpression.parse str = Option.none →
        whenPass rt context (some str) = true) := by
  refine ⟨by decide, fun rt context => rfl, fun rt context str h => ?_⟩
  unfold whenPass
  by_cases hs : str = ""
  · simp [hs]
  · simp [hs, h]

/-- C4 witness: the filter passes the concretely unparseable when-clause
`"a &&"` against a nonempty context. -/
theorem parse_error_yields_null_and_passes_filter_witness :
    whenPass noRegex [("a", .bool true)] (some "a &&") = true :=
  parse_error_yields_null_and_passes_filter.2.2 noRegex [("a", .bool true)] "a &&"
    parse_error_yields_null_and_passes_filter.1

/-- C5: each numeric comparison node evaluates to false whenever the context
value for its key is not a number (a numeric string included), and compares
arithmetically when it is a number; concretely, `"count > 5"` evaluates to
`false` against `{count: "6"}` and to `true` against `{count: 6}`. -/
theorem numeric_comparisons_require_numeric_context_value :
    (∀ (rt : String → String → Bool) (key : String) (q : Rat) (ctx : CtxMap),
      ((ContextKeyExpression.greater key (.num q)).evaluate rt ctx =
        match ctxGet ctx key with
        | .num n => decide (q < n)
        | _ => false) ∧
      ((ContextKeyExpression.greaterEquals key (.num q)).evaluate rt ctx =
        match ctxGet ctx key with
        | .num n => decide (q ≤ n)
        | _ => false) ∧
      ((ContextKeyExpression.smaller key (.num q)).evaluate rt ctx =
        match ctxGet ctx key with
        | .num n => decide (n < q)
        | _ => false) ∧
      ((ContextKeyExpression.smallerEquals key (.num q)).evaluate rt ctx =
        match ctxGet ctx key with
        | .num n => decide (n ≤ q)
        | _ => false)) ∧
    (ContextKeyExpression.parse "count > 5").map
      (fun e => e.evaluate noRegex [("count", .str "6")]) = some false ∧
    (ContextKeyExpression.parse "count > 5").map
      (fun e => e.evaluate noRegex [("count", .num 6)]) = some true := by
  refine ⟨fun rt key q ctx => ?_, by decide, by decide⟩
  refine ⟨?_, ?_, ?_, ?_⟩ <;>
    cases h : ctxGet ctx key <;>
      simp [ContextKeyExpression.evaluate, jsNumCompare, CtxValue.jsToNumber, h]

/-- The recursion of `getValue` is exactly a first-entry search along the
chain of records it visits. -/
theorem getValueAux_eq_firstEntry (s : ContextStore) (key : String) :
    ∀ (fuel : Nat) (node : ContextRecord),
      s.getValueAux key fuel node = firstEntry key (s.valueChain fuel node) := by
  intro fuel
  induction fuel with
  | zero => intro node; rfl
  | succ n ih =>
    intro node
    simp only [ContextStore.getValueAux, ContextStore.valueChain]
    cases hl : node.values.lookup key with
    | some v => simp [firstEntry, hl]
    | none =>
      cases hp : node.parent with
      | none => simp [firstEntry, hl]
      | some pid =>
        cases hr : s.resolveCtxArg (some pid) with
        | none => simp [firstEntry, hl, hr]
        | some r => simp [firstEntry, hl, hr, ih]

/-- C6 counterexample: in `themeStoreReset`, scope 2 *stores* an entry for
`theme` whose value is `undefined` (as `ContextKey.reset()` without a default
does), its parent scope 1 defines `theme = "dark"`, and yet
`getValue("theme", 2)` is `undefined` — the lookup does not fall through to
the ancestor, because the code tests `key in context.values`, which an
explicitly-`undefined` entry satisfies. -/
theorem stored_undefined_does_not_fall_through :
    (themeStoreReset.heapGet 2).map (fun r => r.values.lookup "theme") =
      some (some .undefined) ∧
    themeStoreReset.getValue "theme" (some 1) = .str "dark" ∧
    themeStoreReset.getValue "theme" (some 2) = .undefined := by
  decide

/-- C6 as amended: `getValue(key, scopeId)` returns the value of the nearest
scope on the (map-gated) parent chain that has an *entry* for the key — even
an entry explicitly set to `undefined` — falling through to the next ancestor
only when the key is absent from a scope's map; and `getContext` merges the
chain with child entries shadowing same-named ancestor entries, as on the
concrete parent `{theme: "dark"}` / child `{theme: "light"}` pair. -/
theorem getValue_nearest_entry_and_child_shadowing :
    (∀ (s : ContextStore) (key : String) (oid : Option Nat),
      s.getValue key oid =
        match s.resolveCtxArg oid with
        | Option.none => .undefined
        | some node => firstEntry key (s.valueChain (s.heap.length + 1) node)) ∧
    themeStore.getContext (some 2) = [("theme", .str "light")] ∧
    themeStore.getContext (some 1) = [("theme", .str "dark")] ∧
    themeStore.getValue "theme" (some 2) = .str "light" ∧
    themeStore.getValue "theme" (some 1) = .str "dark" := by
  refine ⟨fun s key oid => ?_, by decide, by decide, by decide, by decide⟩
  cases h : s.resolveCtxArg oid with
  | none => simp [ContextStore.getValue, h]
  | some node => simp [ContextStore.getValue, h, getValueAux_eq_firstEntry]

/-- `getContextAux` only reads the heap, which `disposeScoped` leaves
untouched. -/
theorem getContextAux_dispose (s : ContextStore) (cid : Nat) :
    ∀ (fuel : Nat) (node : ContextRecord) (acc : CtxMap),
      (s.disposeScoped cid).getContextAux fuel node acc = s.getContextAux fuel node acc := by
  intro fuel
  induction fuel with
  | zero => intro node acc; rfl
  | succ n ih =>
    intro node acc
    have hh : ∀ pid : Nat, (s.disposeScoped cid).heapGet pid = s.heapGet pid := fun _ => rfl
    simp only [ContextStore.getContextAux]
    cases hp : node.parent with
    | none => rfl
    | some pid =>
      simp only [hh]
      cases hr : s.heapGet pid with
      | none => rfl
      | some r => simp only [ih]

/-- C7 counterexample: disposing the middle scope 1 of `scopeStoreC` changes
the lookup of the remaining child scope 2 (`getValue("a", 2)` drops from `1`
to `undefined`, because the walk stops at the parent id now missing from the
map), and the scope-to-region binding of scope 1 on element 1 is *not*
removed. -/
theorem dispose_changes_descendant_lookup_and_keeps_binding :
    scopeStoreC.getValue "a" (some 2) = .num 1 ∧
    scopeStoreD.getValue "a" (some 2) = .undefined ∧
    natMapGet scopeStoreD.bindings 1 = some 1 := by
  decide

/-- C7 as amended: disposing a scope removes exactly its id from the
id-to-node map — the heap of context objects, the element markers
(scope-to-region bindings, contrary to the original claim) and `nextId` are
untouched, every other id resolves as before, no child scope is disposed, and
`getContext` of every other scope is unchanged (it walks object references);
but a remaining descendant's `getValue` may change, as the counterexample
shows, since its map-gated walk now stops at the disposed parent. -/
theorem dispose_removes_exactly_one_node :
    ∀ (s : ContextStore) (cid : Nat),
      (s.disposeScoped cid).heap = s.heap ∧
      (s.disposeScoped cid).bindings = s.bindings ∧
      (s.disposeScoped cid).nextId = s.nextId ∧
      (s.disposeScoped cid).contextsMap = s.contextsMap.erase cid ∧
      (∀ c : Nat, c ≠ cid → (s.disposeScoped cid).contextsGet c = s.contextsGet c) ∧
      (∀ c : Nat, c ∈ s.contextsMap → c ≠ cid → c ∈ (s.disposeScoped cid).contextsMap) ∧
      (∀ c : Nat, c ≠ cid →
        (s.disposeScoped cid).getContext (some c) = s.getContext (some c)) := by
  intro s cid
  have hmem : ∀ c : Nat, c ≠ cid → (c ∈ s.contextsMap.erase cid ↔ c ∈ s.contextsMap) :=
    fun c hc => List.mem_erase_of_ne hc
  have hget : ∀ c : Nat, c ≠ cid → (s.disposeScoped cid).contextsGet c = s.contextsGet c := by
    intro c hc
    simp only [ContextStore.contextsGet, ContextStore.disposeScoped, ContextStore.deleteContext,
      ContextStore.heapGet]
    have hcc : (s.contextsMap.erase cid).contains c = s.contextsMap.contains c := by
      by_cases hm : c ∈ s.contextsMap
      · have h1 : c ∈ s.contextsMap.erase cid := (hmem c hc).2 hm
        simp [List.contains, List.elem_eq_mem, hm, h1]
      · have h1 : c ∉ s.contextsMap.erase cid := fun h => hm ((hmem c hc).1 h)
        simp [List.contains, List.elem_eq_mem, hm, h1]
    rw [hcc]
  refine ⟨rfl, rfl, rfl, rfl, hget, ?_, ?_⟩
  · intro c hc hne
    exact (hmem c hne).2 hc
  · intro c hc
    simp only [ContextStore.getContext, ContextStore.resolveCtxArg]
    by_cases h0 : c = 0
    · subst h0
      simp only [if_pos rfl]
      have hh : (s.disposeScoped cid).heapGet 0 = s.heapGet 0 := rfl
      rw [hh]
      cases hr : s.heapGet 0 with
      | none => rfl
      | some node => exact getContextAux_dispose s cid _ node []
    · simp only [if_neg h0]
      rw [hget c hc]
      cases hr : s.contextsGet c with
      | none => rfl
      | some node => exact getContextAux_dispose s cid _ node []

/-- C7 witness: the frame part of the disposal theorem applied at the
concrete store: scope 2 still resolves, and its flattened context is
unchanged, after scope 1 is disposed. -/
theorem dispose_removes_exactly_one_node_witness :
    scopeStoreD.contextsGet 2 = scopeStoreC.contextsGet 2 ∧
    scopeStoreD.getContext (some 2) = scopeStoreC.getContext (some 2) :=
  ⟨(dispose_removes_exactly_one_node scopeStoreC 1).2.2.2.2.1 2 (by decide),
   (dispose_removes_exactly_one_node scopeStoreC 1).2.2.2.2.2.2 2 (by decide)⟩

/-- C10: any context id absent from the store's map (never created, or
already disposed — hence nonzero, since the root id 0 is created by the
constructor and no public operation disposes it) yields the empty flat map
from `getContext` and `undefined` from `getValue` for every key; and in the
concrete disposed-scope store, element 1 is still marked with the disposed
scope id 1, so a key event originating there resolves against the empty flat
context. -/
theorem missing_context_resolves_empty :
    (∀ (s : ContextStore) (cid : Nat) (key : String),
      cid ∉ s.contextsMap → cid ≠ 0 →
        s.getContext (some cid) = [] ∧ s.getValue key (some cid) = .undefined) ∧
    scopeStoreD.getContextForElement demoDom 3 (some 1) = some 1 ∧
    1 ∉ scopeStoreD.contextsMap ∧
    scopeStoreD.getContext (scopeStoreD.getContextForElement demoDom 3 (some 1)) = [] := by
  refine ⟨fun s cid key hmem h0 => ?_, by decide, by decide, by decide⟩
  have hres : s.resolveCtxArg (some cid) = Option.none := by
    simp [ContextStore.resolveCtxArg, h0, ContextStore.contextsGet, List.contains, List.elem_eq_mem, hmem]
  exact ⟨by simp [ContextStore.getContext, hres], by simp [ContextStore.getValue, hres]⟩

/-- C10 witness: the general part applied at the concrete store and the
disposed id 1. -/
theorem missing_context_resolves_empty_witness :
    scopeStoreD.getContext (some 1) = [] ∧ scopeStoreD.getValue "a" (some 1) = .undefined :=
  missing_context_resolves_empty.1 scopeStoreD 1 "a" (by decide) (by decide)

/-- C3: whenever a `handleKeyDown` call reaches resolution, the resulting
chord buffer is non-empty exactly when the outcome was `MoreChordsNeeded`; on
any other outcome (and on chord-timer expiry) the dispatcher returns to the
idle state with an empty buffer.  Concretely, for the two-chord binding
`Ctrl+K Ctrl+B`: `Ctrl+K` alone is `MoreChordsNeeded` and buffers the chord,
`Ctrl+K Ctrl+B` is `Found`, `Ctrl+K Ctrl+X` is `NoMatch` and clears the
buffer, and a following `Ctrl+B` alone resolves fresh to `NoMatch` — not to
`Found`. -/
theorem chord_buffer_nonempty_iff_more_chords_needed :
    (∀ (κ : Type) (p : Platform) (reg : CommandRegistry κ) (cmdCtx : κ)
        (rs : KeybindingResolverState) (store : ContextStore) (dom : Nat → Option Nat)
        (domFuel : Nat) (rt : String → String → Bool) (ev : KeyEvt) (d : DispatchState)
        (r : ResolutionResult),
      (handleKeyDown p reg cmdCtx rs store dom domFuel rt ev d).2.outcome = some r →
        (((handleKeyDown p reg cmdCtx rs store dom domFuel rt ev d).1.currentChords ≠ []) ↔
          r = .moreChordsNeeded) ∧
        (r ≠ .moreChordsNeeded →
          (handleKeyDown p reg cmdCtx rs store dom domFuel rt ev d).1 = .idle)) ∧
    (∀ d : DispatchState, d.fireChordTimeout = .idle) ∧
    (dispatchStep ctrlKEvent .idle).2.outcome = some .moreChordsNeeded ∧
    (dispatchStep ctrlKEvent .idle).1.currentChords = ["Ctrl+K"] ∧
    (dispatchStep ctrlBEvent (dispatchStep ctrlKEvent .idle).1).2.outcome =
      some (.found "cmd.two") ∧
    (dispatchStep ctrlXEvent (dispatchStep ctrlKEvent .idle).1).2.outcome = some .noMatch ∧
    (dispatchStep ctrlXEvent (dispatchStep ctrlKEvent .idle).1).1.currentChords = [] ∧
    (dispatchStep ctrlBEvent
        (dispatchStep ctrlXEvent (dispatchStep ctrlKEvent .idle).1).1).2.outcome =
      some .noMatch := by
  refine ⟨?_, fun d => rfl, by decide, by decide, by decide, by decide, by decide, by decide⟩
  intro κ p reg cmdCtx rs store dom domFuel rt ev d r h
  by_cases h1 : isInputElement ev.target
  · simp [handleKeyDown, h1, DispatchEffects.none] at h
  · by_cases h2 : isModifierOnlyKey ev
    · simp [handleKeyDown, h1, h2, DispatchEffects.none] at h
    · cases hc : eventToChord p ev with
      | none => simp [handleKeyDown, h1, h2, hc, DispatchEffects.none] at h
      | some chord =>
        simp only [handleKeyDown, h1, h2, hc, Bool.false_eq_true, if_false,
          Bool.not_eq_true] at h ⊢
        cases hres : rs.resolve rt (d.currentChords ++ [chord])
            (store.getContext
              (store.getContextForElement dom domFuel (ev.target.map (·.elemId)))) with
        | found commandId =>
          rw [hres] at h
          simp at h
          subst h
          simp [DispatchState.idle]
        | moreChordsNeeded =>
          rw [hres] at h
          simp at h
          subst h
          simp
        | noMatch =>
          rw [hres] at h
          simp at h
          subst h
          simp [DispatchState.idle]

/-- C3 witness: the transition theorem applied at the concrete mid-sequence
`NoMatch`: the dispatcher is back in the idle state. -/
theorem chord_buffer_nonempty_iff_more_chords_needed_witness :
    (dispatchStep ctrlXEvent (dispatchStep ctrlKEvent .idle).1).1 = .idle :=
  (chord_buffer_nonempty_iff_more_chords_needed.1 Unit .linux [] () twoChordResolver
    ContextStore.initStore noDom 3 noRegex ctrlXEvent (dispatchStep ctrlKEvent .idle).1
    .noMatch (by decide)).2 (by decide)

/-- `findIndex` over a list that ends in the only matching element. -/
theorem jsFindIndex_append_last {α : Type} (p : α → Bool) (l : List α) (a : α)
    (hl : ∀ x ∈ l, p x = false) (ha : p a = true) :
    jsFindIndex p (l ++ [a]) = some l.length := by
  induction l with
  | nil => simp [jsFindIndex, ha]
  | cons x xs ih =>
    have hx := hl x (by simp)
    simp [jsFindIndex, hx, ih (fun y hy => hl y (by simp [hy]))]

/-- Reading the appended last element. -/
theorem listGet?_append_length {α : Type} (l : List α) (a : α) :
    listGet? (l ++ [a]) l.length = some a := by
  induction l with
  | nil => rfl
  | cons x xs ih => simpa [listGet?] using ih

/-- Splicing out the appended last element restores the list. -/
theorem jsSplice1_append_length {α : Type} (l : List α) (a : α) :
    jsSplice1 (l ++ [a]) l.length = l := by
  induction l with
  | nil => rfl
  | cons x xs ih => simpa [jsSplice1] using ih

/-- `Map.set` on an absent key appends the entry. -/
theorem mapSet_eq_append {α : Type} {m : List (String × α)} {k : String} (v : α)
    (h : mapGet m k = Option.none) : mapSet m k v = m ++ [(k, v)] := by
  induction m with
  | nil => rfl
  | cons e rest ih =>
    by_cases he : e.1 = k
    · simp [mapGet, he] at h
    · simp only [mapGet, he, if_neg] at h
      simp [mapSet, he, ih h]

/-- `Map.get` of a freshly appended key. -/
theorem mapGet_append_self {α : Type} {m : List (String × α)} {k : String} (v : α)
    (h : mapGet m k = Option.none) : mapGet (m ++ [(k, v)]) k = some v := by
  induction m with
  | nil => simp [mapGet]
  | cons ent rest ih =>
    cases ent with
    | mk k2 v2 =>
      by_cases he : k2 = k
      · simp [mapGet, he] at h
      · simp only [mapGet, he, if_neg] at h
        simp [mapGet, he, ih h]

/-- `Map.delete` of a freshly appended key restores the map. -/
theorem mapDelete_append {α : Type} {m : List (String × α)} {k : String} (v : α)
    (h : mapGet m k = Option.none) : mapDelete (m ++ [(k, v)]) k = m := by
  induction m with
  | nil => simp [mapDelete]
  | cons e rest ih =>
    by_cases he : e.1 = k
    · simp [mapGet, he] at h
    · simp only [mapGet, he, if_neg] at h
      simp [mapDelete, he, ih h]

/-- `Map.get` after `Map.set` of the same key. -/
theorem mapGet_mapSet_self {α : Type} (m : List (String × α)) (k : String) (v : α) :
    mapGet (mapSet m k v) k = some v := by
  induction m with
  | nil => simp [mapSet, mapGet]
  | cons e rest ih =>
    by_cases he : e.1 = k
    · simp [mapSet, mapGet, he]
    · simp [mapSet, mapGet, he, ih]

/-- `Map.set` back to the stored value undoes a `Map.set`. -/
theorem mapSet_mapSet_restore {α : Type} {m : List (String × α)} {k : String} {e : α}
    (v : α) (h : mapGet m k = some e) : mapSet (mapSet m k v) k e = m := by
  induction m with
  | nil => simp [mapGet] at h
  | cons ent rest ih =>
    cases ent with
    | mk k2 v2 =>
      by_cases he : k2 = k
      · subst he
        simp only [mapGet, if_pos, Option.some.injEq] at h
        subst h
        simp [mapSet]
      · simp only [mapGet, he, if_neg] at h
        simp [mapSet, he, ih h]

/-- A successful `Map.get` exhibits its entry. -/
theorem mapGet_mem {α : Type} {m : List (String × α)} {k : String} {v : α}
    (h : mapGet m k = some v) : (k, v) ∈ m := by
  induction m with
  | nil => simp [mapGet] at h
  | cons ent rest ih =>
    cases ent with
    | mk k2 v2 =>
      by_cases he : k2 = k
      · subst he
        simp only [mapGet, if_pos, Option.some.injEq] at h
        subst h
        exact List.mem_cons_self _ _
      · simp only [mapGet, he, if_neg] at h
        exact List.mem_cons_of_mem _ (ih h)

/-- Unregistering a freshly pushed-and-indexed keybinding whose id is not
otherwise present restores the resolver state exactly. -/
theorem registerNormalized_unregister (s : KeybindingResolverState) (nkb : Keybinding)
    (h1 : ∀ kb2 ∈ s.keybindings, kb2.id ≠ nkb.id)
    (h2 : ∀ e ∈ s.keybindingMap, e.2 ≠ [] ∧ ∀ kb2 ∈ e.2, kb2.id ≠ nkb.id) :
    (s.registerNormalized nkb).unregister nkb.id = s := by
  have hfalse : ∀ kb2 ∈ s.keybindings, (decide (kb2.id = nkb.id)) = false :=
    fun kb2 hm => decide_eq_false (h1 kb2 hm)
  have hfind : jsFindIndex (fun kb2 => kb2.id = nkb.id) (s.keybindings ++ [nkb]) =
      some s.keybindings.length :=
    jsFindIndex_append_last _ _ _ hfalse (by simp)
  by_cases hks : getKeySequence s.platform nkb = ""
  · have hreg : s.registerNormalized nkb = { s with keybindings := s.keybindings ++ [nkb] } := by
      simp [KeybindingResolverState.registerNormalized, hks]
    rw [hreg]
    simp [KeybindingResolverState.unregister, List.headD_eq_head?, hfind,
      listGet?_append_length, jsSplice1_append_length, hks]
  · have hreg : s.registerNormalized nkb =
        { s with
          keybindings := s.keybindings ++ [nkb]
          keybindingMap := mapSet s.keybindingMap
            ((jsSplitSpace (getKeySequence s.platform nkb)).head?.getD "")
            ((mapGet s.keybindingMap
              ((jsSplitSpace (getKeySequence s.platform nkb)).head?.getD "")).getD [] ++ [nkb]) } := by
      simp [KeybindingResolverState.registerNormalized, hks]
    rw [hreg]
    cases hm : mapGet s.keybindingMap ((jsSplitSpace (getKeySequence s.platform nkb)).head?.getD "") with
    | none =>
      simp only [KeybindingResolverState.unregister, List.headD_eq_head?, hfind,
        listGet?_append_length, jsSplice1_append_length, hks, hm, Option.getD_none,
        List.nil_append, if_neg]
      rw [mapSet_eq_append _ hm, mapGet_append_self _ hm]
      simp [jsFindIndex, jsSplice1, mapDelete_append _ hm]
    | some e =>
      have he := h2 _ (mapGet_mem hm)
      have he1 : e ≠ [] := he.1
      have hefalse : ∀ x ∈ e, (decide (x.id = nkb.id)) = false :=
        fun x hx => decide_eq_false (he.2 x hx)
      have hfind2 : jsFindIndex (fun kb2 => kb2.id = nkb.id) (e ++ [nkb]) = some e.length :=
        jsFindIndex_append_last _ _ _ hefalse (by simp)
      simp only [KeybindingResolverState.unregister, List.headD_eq_head?, hfind,
        listGet?_append_length, jsSplice1_append_length, hks, hm, Option.getD_some,
        mapGet_mapSet_self, hfind2, if_neg]
      simp [jsSplice1_append_length, he1, mapSet_mapSet_restore _ hm]

/-- C8: for any resolver state and any entry whose id is not already present
(in the flat list or the index — and with the index holding no empty
candidate lists, as every reachable index does), registering and then
unregistering the entry restores the state exactly, so `getAll`,
`lookupKeybinding` and `resolve` behave as before; the unregistration removes
the entry from both structures. -/
theorem register_unregister_roundtrip :
    ∀ (s : KeybindingResolverState) (kb : Keybinding),
      (∀ kb2 ∈ s.keybindings, kb2.id ≠ kb.id) →
      (∀ e ∈ s.keybindingMap, e.2 ≠ [] ∧ ∀ kb2 ∈ e.2, kb2.id ≠ kb.id) →
      (s.register kb).unregister kb.id = s ∧
      ((s.register kb).unregister kb.id).getAll = s.getAll ∧
      (∀ commandId, ((s.register kb).unregister kb.id).lookupKeybinding commandId =
        s.lookupKeybinding commandId) ∧
      (∀ (rt : String → String → Bool) (chords : List String) (context : CtxMap),
        ((s.register kb).unregister kb.id).resolve rt chords context =
          s.resolve rt chords context) := by
  intro s kb h1 h2
  have hmain : (s.register kb).unregister kb.id = s :=
    registerNormalized_unregister s (normalizeKb s.platform kb) h1 h2
  exact ⟨hmain, by rw [hmain], fun commandId => by rw [hmain],
    fun rt chords context => by rw [hmain]⟩

/-- C8 witness: the round trip at a concrete state with one prior binding. -/
theorem register_unregister_roundtrip_witness :
    ((twoChordResolver.register (kbOf "kb.new" "cmd.new" "Ctrl+N" Option.none)).unregister
      "kb.new") = twoChordResolver :=
  (register_unregister_roundtrip twoChordResolver (kbOf "kb.new" "cmd.new" "Ctrl+N" Option.none)
    (by decide) (by decide)).1

/-- C2: `resolve` computes exactly the specification's algorithm — candidates
indexed under the first pending chord, kept when the platform-resolved
sequence is at least as long as the pending chords, agrees token-for-token on
the pending prefix and the when-clause passes, with the first survivor in
registration order deciding `Found` (equal length) vs `MoreChordsNeeded`
(longer) and `NoMatch` otherwise — whenever the indexed candidates have
non-empty platform-resolved sequences (true of every candidate the code
indexes, since `register` skips empty sequences).  Concretely, two bindings on
one chord gated by `x` and `!x` resolve to the first command under
`{x: true}` and the second under `{x: false}`. -/
theorem resolve_matches_spec_and_orders_by_registration :
    (∀ (rt : String → String → Bool) (s : KeybindingResolverState) (chords : List String)
        (context : CtxMap),
      (∀ kb ∈ (mapGet s.keybindingMap (chords.headD "")).getD [],
        getKeySequence s.platform kb ≠ "") →
      s.resolve rt chords context = s.resolveSpec rt chords context) ∧
    twoBindResolver.resolve noRegex ["Ctrl+K"] [("x", .bool true)] = .found "cmd1" ∧
    twoBindResolver.resolve noRegex ["Ctrl+K"] [("x", .bool false)] = .found "cmd2" := by
  refine ⟨?_, by decide, by decide⟩
  intro rt s chords context h
  cases chords with
  | nil => rfl
  | cons c rest =>
    have h' : ∀ kb ∈ (mapGet s.keybindingMap c).getD [],
        getKeySequence s.platform kb ≠ "" := h
    simp only [KeybindingResolverState.resolve, KeybindingResolverState.resolveSpec]
    rw [List.filter_congr (p := fun kb =>
        let keySequence := getKeySequence s.platform kb
        if keySequence = "" then false
        else
          let kbChords := jsSplitSpace keySequence
          if (c :: rest).length > kbChords.length then false
          else kbChords.take (c :: rest).length == c :: rest)
      (q := fun kb =>
        decide ((c :: rest).length ≤ (jsSplitSpace (getKeySequence s.platform kb)).length) &&
          ((jsSplitSpace (getKeySequence s.platform kb)).take (c :: rest).length == c :: rest))
      (fun kb hkb => by
        simp only []
        rw [if_neg (h' kb hkb)]
        by_cases hlen : (c :: rest).length > (jsSplitSpace (getKeySequence s.platform kb)).length
        · rw [if_pos hlen, decide_eq_false (Nat.not_le.mpr hlen), Bool.false_and]
        · rw [if_neg hlen, decide_eq_true (Nat.not_lt.mp hlen), Bool.true_and])]
    have hQ : ((mapGet s.keybindingMap c).getD []).filter (fun kb =>
          decide ((c :: rest).length ≤ (jsSplitSpace (getKeySequence s.platform kb)).length) &&
            ((jsSplitSpace (getKeySequence s.platform kb)).take (c :: rest).length ==
              c :: rest) &&
            whenPass rt context kb.when) =
        (((mapGet s.keybindingMap c).getD []).filter (fun kb =>
          decide ((c :: rest).length ≤ (jsSplitSpace (getKeySequence s.platform kb)).length) &&
            ((jsSplitSpace (getKeySequence s.platform kb)).take (c :: rest).length ==
              c :: rest))).filter (fun kb => whenPass rt context kb.when) := by
      rw [List.filter_filter]
      exact List.filter_congr (fun kb hkb => Bool.and_comm _ _)
    rw [← hQ]
    split
    · rename_i hif
      have hnil : ((mapGet s.keybindingMap c).getD []).filter (fun kb =>
          decide ((c :: rest).length ≤ (jsSplitSpace (getKeySequence s.platform kb)).length) &&
            ((jsSplitSpace (getKeySequence s.platform kb)).take (c :: rest).length ==
              c :: rest)) = [] := by
        simpa [List.isEmpty_iff] using hif
      rw [hQ, hnil]
      rfl
    · rename_i hif
      cases hsurv : ((mapGet s.keybindingMap c).getD []).filter (fun kb =>
          decide ((c :: rest).length ≤ (jsSplitSpace (getKeySequence s.platform kb)).length) &&
            ((jsSplitSpace (getKeySequence s.platform kb)).take (c :: rest).length ==
              c :: rest) &&
            whenPass rt context kb.when) with
      | nil => rfl
      | cons b t =>
        show (if getKeySequence s.platform b = "" then ResolutionResult.noMatch
              else if (c :: rest).length < (jsSplitSpace (getKeySequence s.platform b)).length
                then .moreChordsNeeded else .found b.commandId) =
            (if (jsSplitSpace (getKeySequence s.platform b)).length = (c :: rest).length
              then .found b.commandId else .moreChordsNeeded)
        have hbmem : b ∈ ((mapGet s.keybindingMap c).getD []).filter (fun kb =>
            decide ((c :: rest).length ≤ (jsSplitSpace (getKeySequence s.platform kb)).length) &&
              ((jsSplitSpace (getKeySequence s.platform kb)).take (c :: rest).length ==
                c :: rest) &&
              whenPass rt context kb.when) := by
          rw [hsurv]; exact List.mem_cons_self _ _
        have hb := List.mem_filter.mp hbmem
        have hble : (c :: rest).length ≤ (jsSplitSpace (getKeySequence s.platform b)).length := by
          have := hb.2
          simp only [Bool.and_eq_true, decide_eq_true_eq] at this
          exact this.1.1
        rw [if_neg (h' b hb.1)]
        by_cases heq : (jsSplitSpace (getKeySequence s.platform b)).length = (c :: rest).length
        · rw [if_neg (by rw [heq]; exact Nat.lt_irrefl _), if_pos heq]
        · rw [if_pos (Nat.lt_of_le_of_ne hble (fun hx => heq hx.symm)), if_neg heq]

/-- C2 witness: the specification algorithm, computed through the refinement
theorem at the concrete two-binding state, also yields the first binding's
command under `{x: true}`. -/
theorem resolve_matches_spec_and_orders_by_registration_witness :
    twoBindResolver.resolveSpec noRegex ["Ctrl+K"] [("x", .bool true)] = .found "cmd1" := by
  rw [← resolve_matches_spec_and_orders_by_registration.1 noRegex twoBindResolver
    ["Ctrl+K"] [("x", .bool true)] (by decide)]
  exact resolve_matches_spec_and_orders_by_registration.2.1

/-- C9 counterexample: an event that is neither a standalone modifier press
nor inside a text-editing control can still produce no chord: with an
unrecognized physical code and an empty logical key (as browsers deliver for
some dead-key/IME events), `normalizeKey` returns `null`, so no token is
emitted — against the claim that every such event emits one token. -/
theorem non_modifier_event_with_empty_key_yields_no_chord :
    isInputElement unidentifiedEvent.target = false ∧
    isModifierOnlyKey unidentifiedEvent = false ∧
    chordOf .linux unidentifiedEvent = Option.none ∧
    chordOf .mac unidentifiedEvent = Option.none := by
  decide

/-- C9 as amended: the chord codec produces no chord on a text-editing target
or a standalone modifier press; otherwise, *when the base key normalizes to a
token*, it emits one token consisting of the modifiers in the platform-fixed
order (`Ctrl, Alt, Shift, Cmd` on mac, `Ctrl, Shift, Alt, Meta` elsewhere)
followed by the normalized base key; and the base-key normalization maps the
navigation/editing keys to their fixed tokens, keeps `F1`..`F12`, maps
physical letter/digit positions to the unshifted letter/digit, and uppercases
a single-character logical key of an otherwise-unrecognized code. -/
theorem chord_codec_token_structure :
    (∀ (p : Platform) (ev : KeyEvt),
      isInputElement ev.target = true → chordOf p ev = Option.none) ∧
    (∀ (p : Platform) (ev : KeyEvt),
      isModifierOnlyKey ev = true → chordOf p ev = Option.none) ∧
    (∀ (p : Platform) (ev : KeyEvt) (base : String),
      isInputElement ev.target = false → isModifierOnlyKey ev = false →
      normalizeKey ev.code ev.key = some base →
        chordOf p ev = some (String.intercalate "+" (modifierParts p ev ++ [base]))) ∧
    (∀ ev : KeyEvt, ev.ctrlKey = true → ev.altKey = true → ev.shiftKey = true →
      ev.metaKey = true →
        modifierParts .mac ev = ["Ctrl", "Alt", "Shift", "Cmd"] ∧
        modifierParts .win ev = ["Ctrl", "Shift", "Alt", "Meta"] ∧
        modifierParts .linux ev = ["Ctrl", "Shift", "Alt", "Meta"]) ∧
    (∀ key : String,
      normalizeKey "ArrowLeft" key = some "Left" ∧
      normalizeKey "ArrowRight" key = some "Right" ∧
      normalizeKey "ArrowUp" key = some "Up" ∧
      normalizeKey "ArrowDown" key = some "Down" ∧
      normalizeKey "Escape" key = some "Escape" ∧
      normalizeKey "Enter" key = some "Enter" ∧
      normalizeKey "Space" key = some "Space" ∧
      normalizeKey "Tab" key = some "Tab" ∧
      normalizeKey "Backspace" key = some "Backspace" ∧
      normalizeKey "Delete" key = some "Delete" ∧
      normalizeKey "Home" key = some "Home" ∧
      normalizeKey "End" key = some "End" ∧
      normalizeKey "PageUp" key = some "PageUp" ∧
      normalizeKey "PageDown" key = some "PageDown" ∧
      normalizeKey "Insert" key = some "Insert") ∧
    (∀ (s key : String), normalizeKey ("Key" ++ s) key = some s) ∧
    (∀ (s key : String), normalizeKey ("Digit" ++ s) key = some s) ∧
    (∀ key : String,
      (["F1", "F2", "F3", "F4", "F5", "F6", "F7", "F8", "F9", "F10", "F11", "F12"].all
        (fun c => normalizeKey c key == some c)) = true) ∧
    normalizeKey "Semicolon" ";" = some ";" ∧
    normalizeKey "Equal" "a" = some "A" ∧
    eventToChord .mac allModsEvent = some "Ctrl+Alt+Shift+Cmd+A" ∧
    eventToChord .linux allModsEvent = some "Ctrl+Shift+Alt+Meta+A" := by
  refine ⟨?_, ?_, ?_, ?_, ?_, ?_, ?_, ?_, by decide, by decide, by decide, by decide⟩
  · intro p ev h
    simp [chordOf, h]
  · intro p ev h
    simp [chordOf, h]
  · intro p ev base h1 h2 h3
    simp [chordOf, h1, h2, eventToChord, h3]
  · intro ev h1 h2 h3 h4
    exact ⟨by simp [modifierParts, h1, h2, h3, h4], by simp [modifierParts, h1, h2, h3, h4],
      by simp [modifierParts, h1, h2, h3, h4]⟩
  · intro key
    exact ⟨rfl, rfl, rfl, rfl, rfl, rfl, rfl, rfl, rfl, rfl, rfl, rfl, rfl, rfl, rfl⟩
  · intro s key
    cases s with
    | mk l => rfl
  · intro s key
    cases s with
    | mk l => rfl
  · intro key
    rfl

/-- C9 witness: the token-structure part applied at the concrete `Ctrl+K`
press. -/
theorem chord_codec_token_structure_witness :
    chordOf .linux ctrlKEvent =
      some (String.intercalate "+" (modifierParts .linux ctrlKEvent ++ ["K"])) :=
  chord_codec_token_structure.2.2.1 .linux ctrlKEvent "K" (by decide) (by decide) (by decide)
